import Mathlib

/-!
Verification of the buffer, cursor, and viewport engine of the pico text
editor (src/pico.c), via a shallow embedding.  A line is its list of bytes
(no stored line-break byte); the document is the ordered list of lines that
the doubly-linked list of the source represents; the editor state carries the
cursor position in document coordinates and the viewport offsets.  The
embedding resolves the current line from the cursor row, which matches the
running program: the render pass of draw_rows re-synchronises the
current-line pointer with the cursor row on every redraw.
-/

namespace Pico

/-- One line of text: the bytes of the line (text[0..len) in the source). -/
abbrev Line := List Nat

/-- The editor state: the document (the linked list of lines headed by
first_line), the cursor position in file coordinates (cursor_row,
cursor_col), and the scroll offsets (viewport_row, viewport_col).  The
viewport offsets are C ints, so they are modelled as integers. -/
structure EditorState where
  doc : List Line
  cursor_row : Nat
  cursor_col : Nat
  viewport_row : Int
  viewport_col : Int
  deriving Repr, DecidableEq

/-- A line together with its allocation bookkeeping, as in line_t: the
content bytes (text), and the allocated capacity (cap).  The logical length
len of the source is the length of text. -/
structure LineBuf where
  text : List Nat
  cap : Nat
  deriving Repr, DecidableEq

/-- line->len of the source: the number of content bytes in use. -/
def LineBuf.len (b : LineBuf) : Nat := b.text.length

/-- expand_line (pico.c:205): if len + needed >= cap, grow the capacity to
(len + needed) * 2; realloc preserves the content bytes. -/
def expand_line (b : LineBuf) (needed : Nat) : LineBuf :=
  if b.cap ≤ b.len + needed then { b with cap := (b.len + needed) * 2 } else b

/-- link_new_line (pico.c:195): splice a new line immediately after the line
at index i of the document. -/
def link_new_line (doc : List Line) (i : Nat) (l : Line) : List Line :=
  doc.take (i + 1) ++ l :: doc.drop (i + 1)

/-- delete_line (pico.c:161) on the line at index i: if the line has a
predecessor (i > 0) it is unlinked and freed and the cursor moves to the
predecessor; else if it has a successor (the document has more than one
line) it is unlinked, the head pointer moves to the successor, and the
cursor moves there; otherwise it is the sole line, which is cleared in
place rather than destroyed.  Returns the new document and the index of the
line that receives the cursor. -/
def delete_line (doc : List Line) (i : Nat) : List Line × Nat :=
  if 0 < i then (doc.eraseIdx i, i - 1)
  else if 1 < doc.length then (doc.eraseIdx 0, 0)
  else (doc.set i [], i)

/-- insert_newline (pico.c:216): if the cursor is mid-line, split the line
at the cursor column (tail moves to the new line, current line truncated);
otherwise link an empty new line after the current one.  Cursor moves to
(row + 1, 0). -/
def insert_newline (s : EditorState) : EditorState :=
  let cur := s.doc.getD s.cursor_row []
  if s.cursor_col < cur.length then
    { s with
      doc := link_new_line (s.doc.set s.cursor_row (cur.take s.cursor_col))
              s.cursor_row (cur.drop s.cursor_col)
      cursor_row := s.cursor_row + 1
      cursor_col := 0 }
  else
    { s with
      doc := link_new_line s.doc s.cursor_row []
      cursor_row := s.cursor_row + 1
      cursor_col := 0 }

/-- delete_char (pico.c:248), backward delete: with the cursor mid-line,
remove the byte left of the cursor (the memmove shifts text[col..len) one
place left and len and col decrement); at column 0 on a row with a
predecessor, append the current line to the predecessor, remove the current
line via delete_line, move the cursor row up, and set the column to the
predecessor's pre-merge length; at (0, 0) do nothing. -/
def delete_char (s : EditorState) : EditorState :=
  let cur := s.doc.getD s.cursor_row []
  if 0 < s.cursor_col ∧ 0 < cur.length then
    { s with
      doc := s.doc.set s.cursor_row (cur.eraseIdx (s.cursor_col - 1))
      cursor_col := s.cursor_col - 1 }
  else if s.cursor_col = 0 ∧ 0 < s.cursor_row then
    if s.cursor_row - 1 < s.doc.length then
      let prev := s.doc.getD (s.cursor_row - 1) []
      let doc2 := s.doc.set (s.cursor_row - 1) (prev ++ cur)
      { s with
        doc := (delete_line doc2 s.cursor_row).1
        cursor_row := s.cursor_row - 1
        cursor_col := prev.length }
    else s
  else s

/-- insert_char (pico.c:275): shift the bytes at and after the cursor column
one place right, write the byte at the cursor column, advance the column. -/
def insert_char (c : Nat) (s : EditorState) : EditorState :=
  let cur := s.doc.getD s.cursor_row []
  { s with
    doc := s.doc.set s.cursor_row (cur.take s.cursor_col ++ c :: cur.drop s.cursor_col)
    cursor_col := s.cursor_col + 1 }

/-- isprint of ctype.h in the C locale: the printable bytes 0x20..0x7E. -/
def isprint_byte (c : Nat) : Bool := decide (32 ≤ c ∧ c ≤ 126)

/-- process_input (pico.c:417) on the decoded key code c.  Key codes follow
the source: 17 = Ctrl-Q (quit), 19 = Ctrl-S (save) — neither changes the
buffer —, 500..503 the arrow keys, 13 = ENTER, 127 = BACKSPACE; any other
printable byte is inserted and everything else is ignored. -/
def process_input (c : Nat) (s : EditorState) : EditorState :=
  if c = 17 then s
  else if c = 19 then s
  else if c = 500 then
    if 0 < s.cursor_row then { s with cursor_row := s.cursor_row - 1 } else s
  else if c = 501 then
    if s.cursor_row + 1 < s.doc.length then
      { s with cursor_row := s.cursor_row + 1 }
    else s
  else if c = 502 then
    if 0 < s.cursor_col then { s with cursor_col := s.cursor_col - 1 }
    else if 0 < s.cursor_row then
      { s with
        cursor_row := s.cursor_row - 1
        cursor_col := (s.doc.getD (s.cursor_row - 1) []).length }
    else s
  else if c = 503 then
    if s.cursor_row < s.doc.length ∧ s.cursor_col < (s.doc.getD s.cursor_row []).length then
      { s with cursor_col := s.cursor_col + 1 }
    else if s.cursor_row + 1 < s.doc.length then
      { s with cursor_row := s.cursor_row + 1, cursor_col := 0 }
    else s
  else if c = 13 then insert_newline s
  else if c = 127 then delete_char s
  else if isprint_byte c then insert_char c s
  else s

/-- check_scroll (pico.c:342): pull the vertical offset up to the cursor row
or push it down so the cursor stays in the band of trows visible rows, then
the same horizontally against the usable width max_viewport_col
 = tcols - 10 (set in get_window_size, pico.c:130), with a floor of 0 on the
left edge.  The current-line pointer is non-null for the whole run of the
program, so the horizontal block always executes. -/
def check_scroll (trows tcols : Int) (s : EditorState) : EditorState :=
  let vr :=
    if (s.cursor_row : Int) < s.viewport_row then (s.cursor_row : Int)
    else if s.viewport_row + trows ≤ (s.cursor_row : Int) then
      (s.cursor_row : Int) - trows + 1
    else s.viewport_row
  let maxvc := tcols - 10
  let vc0 :=
    if (s.cursor_col : Int) < s.viewport_col then (s.cursor_col : Int)
    else if s.viewport_col + maxvc < (s.cursor_col : Int) then
      (s.cursor_col : Int) - maxvc
    else s.viewport_col
  let vc := if vc0 < 0 then 0 else vc0
  { s with viewport_row := vr, viewport_col := vc }

/-- The line the render loop of draw_rows (pico.c:364) leaves in
current_line: the loop renders lines starting at index max(viewport_row, 0)
and re-points current_line at the line shown on screen row
cursor_row - viewport_row when that screen row is rendered; otherwise
current_line stays at first_line. -/
def resolve_current (trows : Int) (s : EditorState) : Line :=
  let idx : Int := (s.cursor_row : Int) - s.viewport_row
  let lineIdx : Int := max s.viewport_row 0 + idx
  if 0 ≤ idx ∧ idx < trows ∧ lineIdx < (s.doc.length : Int) then
    s.doc.getD lineIdx.toNat []
  else s.doc.headD []

/-- The cursor clamp at the end of draw_rows (pico.c:403): the row is
clamped below the line count (and at 0), and the column is clamped to the
length of the resolved current line. -/
def draw_rows (trows : Int) (s : EditorState) : EditorState :=
  let current := resolve_current trows s
  let total := s.doc.length
  { s with
    cursor_row := if total ≤ s.cursor_row then total - 1 else s.cursor_row
    cursor_col := if current.length < s.cursor_col then current.length else s.cursor_col }

/-- One full event step of the main loop (pico.c:538): process one decoded
input event, then the refresh pass of refresh_screen — check_scroll followed
by draw_rows — with the terminal dimensions trows, tcols. -/
def step (trows tcols : Int) (c : Nat) (s : EditorState) : EditorState :=
  draw_rows trows (check_scroll trows tcols (process_input c s))

/-- Iterated backward delete: n consecutive delete_char operations. -/
def iterate_delete (n : Nat) (s : EditorState) : EditorState :=
  match n with
  | 0 => s
  | n + 1 => iterate_delete n (delete_char s)

/-- The cursor-bound invariant of the spec, together with the viewport fact
that makes it inductive: the row addresses a line, the column is at most
that line's length, and the vertical scroll offset is non-negative (it
starts at 0 and check_scroll never drives it negative). -/
def Inv (s : EditorState) : Prop :=
  s.cursor_row < s.doc.length ∧
  s.cursor_col ≤ (s.doc.getD s.cursor_row []).length ∧
  0 ≤ s.viewport_row

/-- The line-accumulation loop of read_file (pico.c:284): each line-break
byte links a fresh empty line after the current one (which is always the
last), any other byte is appended to the current line. -/
def load_aux : List Nat → Line → List Line
  | [], cur => [cur]
  | c :: rest, cur =>
    if c = 10 then cur :: load_aux rest []
    else load_aux rest (cur ++ [c])

/-- Loading a byte sequence into a fresh document: main (pico.c:530) creates
the single empty initial line, then read_file splits the content on
line-break bytes. -/
def load (content : List Nat) : List Line := load_aux content []

/-- save_file (pico.c:307): write each line's bytes, with one line-break
byte before every following line and none after the last. -/
def save : List Line → List Nat
  | [] => []
  | [l] => l
  | l :: l2 :: rest => l ++ 10 :: save (l2 :: rest)

/-! ### List index helpers -/

theorem getD_append_cancel {α : Type} (A l : List α) (i : Nat) (d : α) :
    (A ++ l).getD (A.length + i) d = l.getD i d := by
  induction A with
  | nil => simp
  | cons a A ih =>
      have h : (a :: A).length + i = (A.length + i) + 1 := by
        simp only [List.length_cons]; omega
      rw [List.cons_append, h, List.getD_cons_succ, ih]

theorem set_append_cancel {α : Type} (A l : List α) (i : Nat) (x : α) :
    (A ++ l).set (A.length + i) x = A ++ l.set i x := by
  induction A with
  | nil => simp
  | cons a A ih =>
      have h : (a :: A).length + i = (A.length + i) + 1 := by
        simp only [List.length_cons]; omega
      rw [List.cons_append, h]
      show a :: (A ++ l).set (A.length + i) x = a :: (A ++ l.set i x)
      rw [ih]

theorem eraseIdx_append_cancel {α : Type} (A l : List α) (i : Nat) :
    (A ++ l).eraseIdx (A.length + i) = A ++ l.eraseIdx i := by
  induction A with
  | nil => simp
  | cons a A ih =>
      have h : (a :: A).length + i = (A.length + i) + 1 := by
        simp only [List.length_cons]; omega
      rw [List.cons_append, h]
      show a :: (A ++ l).eraseIdx (A.length + i) = a :: (A ++ l.eraseIdx i)
      rw [ih]

theorem take_append_cancel {α : Type} (A l : List α) (i : Nat) :
    (A ++ l).take (A.length + i) = A ++ l.take i := by
  induction A with
  | nil => simp
  | cons a A ih =>
      have h : (a :: A).length + i = (A.length + i) + 1 := by
        simp only [List.length_cons]; omega
      rw [List.cons_append, h]
      show a :: (A ++ l).take (A.length + i) = a :: (A ++ l.take i)
      rw [ih]

theorem drop_append_cancel {α : Type} (A l : List α) (i : Nat) :
    (A ++ l).drop (A.length + i) = l.drop i := by
  induction A with
  | nil => simp
  | cons a A ih =>
      have h : (a :: A).length + i = (A.length + i) + 1 := by
        simp only [List.length_cons]; omega
      rw [List.cons_append, h]
      show (A ++ l).drop (A.length + i) = l.drop i
      exact ih

theorem exists_decomp {α : Type} (l : List α) (i : Nat) (h : i < l.length) :
    ∃ A b B, l = A ++ b :: B ∧ A.length = i := by
  induction l generalizing i with
  | nil => simp at h
  | cons a l ih =>
      cases i with
      | zero => exact ⟨[], a, l, rfl, rfl⟩
      | succ i =>
          obtain ⟨A, b, B, hl, hA⟩ := ih i (by simpa using h)
          exact ⟨a :: A, b, B, by simp [hl], by simp [hA]⟩

theorem eraseIdx_take_drop {α : Type} (l : List α) (i : Nat) :
    l.eraseIdx i = l.take i ++ l.drop (i + 1) := by
  induction l generalizing i with
  | nil => simp [List.eraseIdx]
  | cons a l ih =>
      cases i with
      | zero => simp [List.eraseIdx]
      | succ i => simp [List.eraseIdx, ih]

theorem length_eraseIdx_of_lt {α : Type} (l : List α) (i : Nat) (h : i < l.length) :
    (l.eraseIdx i).length = l.length - 1 := by
  induction l generalizing i with
  | nil => simp at h
  | cons a l ih =>
      cases i with
      | zero => simp [List.eraseIdx]
      | succ i =>
          have hi : i < l.length := by simpa using h
          have := ih i hi
          simp only [List.eraseIdx, List.length_cons, this]
          omega

theorem one_le_length_eraseIdx_pos {α : Type} (l : List α) (i : Nat)
    (hi : 0 < i) (hl : 1 ≤ l.length) : 1 ≤ (l.eraseIdx i).length := by
  cases l with
  | nil => simp at hl
  | cons a l =>
      cases i with
      | zero => omega
      | succ i => simp [List.eraseIdx]

/-! ### Load/save lemmas -/

theorem load_aux_ne_nil (content : List Nat) (cur : Line) :
    load_aux content cur ≠ [] := by
  induction content generalizing cur with
  | nil => simp [load_aux]
  | cons c rest ih =>
      simp only [load_aux]
      split_ifs with h
      · simp
      · exact ih _

theorem save_cons_of_ne_nil (l : Line) (L : List Line) (h : L ≠ []) :
    save (l :: L) = l ++ 10 :: save L := by
  cases L with
  | nil => exact absurd rfl h
  | cons l2 rest => rfl

theorem save_load_aux (content : List Nat) (cur : Line) :
    save (load_aux content cur) = cur ++ content := by
  induction content generalizing cur with
  | nil => simp [load_aux, save]
  | cons c rest ih =>
      simp only [load_aux]
      split_ifs with h
      · rw [save_cons_of_ne_nil _ _ (load_aux_ne_nil rest []), ih]
        simp [h]
      · rw [ih]
        simp

theorem save_eq_intercalate : ∀ doc : List Line, save doc = List.intercalate [10] doc
  | [] => by simp [save, List.intercalate]
  | [l] => by simp [save, List.intercalate, List.intersperse]
  | l :: l2 :: rest => by
      have ih := save_eq_intercalate (l2 :: rest)
      simp only [save, List.intercalate, List.intersperse] at ih ⊢
      simp [ih]

theorem count_save : ∀ doc : List Line, doc ≠ [] → (∀ l ∈ doc, (10 : Nat) ∉ l) →
    (save doc).count 10 = doc.length - 1
  | [], h, _ => absurd rfl h
  | [l], _, hnl => by
      simp only [save, List.length_cons, List.length_nil]
      rw [List.count_eq_zero.mpr (hnl l (by simp))]
  | l :: l2 :: rest, _, hnl => by
      have ih := count_save (l2 :: rest) (by simp) (fun x hx => hnl x (by simp [hx]))
      simp only [save, List.count_append, List.count_cons, List.length_cons] at ih ⊢
      rw [List.count_eq_zero.mpr (hnl l (by simp))]
      simp at ih ⊢
      omega

theorem getD_append_len {α : Type} (A : List α) (b : α) (B : List α) (d : α) :
    (A ++ b :: B).getD A.length d = b := by
  simpa using getD_append_cancel A (b :: B) 0 d

theorem getD_append_len_succ {α : Type} (A : List α) (b c : α) (B : List α) (d : α) :
    (A ++ b :: c :: B).getD (A.length + 1) d = c := by
  simpa using getD_append_cancel A (b :: c :: B) 1 d

theorem set_append_len {α : Type} (A : List α) (b : α) (B : List α) (x : α) :
    (A ++ b :: B).set A.length x = A ++ x :: B := by
  simpa using set_append_cancel A (b :: B) 0 x

theorem eraseIdx_append_len_succ {α : Type} (A : List α) (b c : α) (B : List α) :
    (A ++ b :: c :: B).eraseIdx (A.length + 1) = A ++ b :: B := by
  simpa using eraseIdx_append_cancel A (b :: c :: B) 1

theorem take_append_len_succ {α : Type} (A : List α) (b : α) (B : List α) :
    (A ++ b :: B).take (A.length + 1) = A ++ [b] := by
  simpa using take_append_cancel A (b :: B) 1

theorem drop_append_len_succ {α : Type} (A : List α) (b : α) (B : List α) :
    (A ++ b :: B).drop (A.length + 1) = B := by
  simpa using drop_append_cancel A (b :: B) 1

/-! ### Reduction of process_input at each key code -/

theorem process_input_up_eq (s : EditorState) :
    process_input 500 s =
      (if 0 < s.cursor_row then { s with cursor_row := s.cursor_row - 1 } else s) := by
  simp [process_input]

theorem process_input_down_eq (s : EditorState) :
    process_input 501 s =
      (if s.cursor_row + 1 < s.doc.length then
        { s with cursor_row := s.cursor_row + 1 }
       else s) := by
  simp [process_input]

theorem process_input_left_eq (s : EditorState) :
    process_input 502 s =
      (if 0 < s.cursor_col then { s with cursor_col := s.cursor_col - 1 }
       else if 0 < s.cursor_row then
        { s with
          cursor_row := s.cursor_row - 1
          cursor_col := (s.doc.getD (s.cursor_row - 1) []).length }
       else s) := by
  simp [process_input]

theorem process_input_right_eq (s : EditorState) :
    process_input 503 s =
      (if s.cursor_row < s.doc.length ∧ s.cursor_col < (s.doc.getD s.cursor_row []).length then
        { s with cursor_col := s.cursor_col + 1 }
       else if s.cursor_row + 1 < s.doc.length then
        { s with cursor_row := s.cursor_row + 1, cursor_col := 0 }
       else s) := by
  simp [process_input]

theorem process_input_enter_eq (s : EditorState) :
    process_input 13 s = insert_newline s := by
  simp [process_input]

theorem process_input_backspace_eq (s : EditorState) :
    process_input 127 s = delete_char s := by
  simp [process_input]

/-! ### Claim theorems -/

/-- C2: loading any byte sequence into a fresh document and saving it back
reproduces the content byte-for-byte; the empty input loads as a document of
one empty line, whose save output is empty. -/
theorem load_save_round_trip (content : List Nat) :
    save (load content) = content ∧ load [] = [[]] ∧ save (load []) = [] := by
  refine ⟨?_, rfl, rfl⟩
  simpa using save_load_aux content []

/-- C7: for a document of n ≥ 1 lines (none containing a line-break byte),
save writes each line's bytes in order with one line-break byte after every
line except the last, hence exactly n - 1 line-break bytes in the output. -/
theorem save_line_breaks (doc : List Line) (hne : doc ≠ [])
    (hnl : ∀ l ∈ doc, (10 : Nat) ∉ l) :
    save doc = List.intercalate [10] doc ∧ (save doc).count 10 = doc.length - 1 :=
  ⟨save_eq_intercalate doc, count_save doc hne hnl⟩

/-- Witness for C7 at the two-line document of bytes a and b. -/
theorem save_line_breaks_witness :
    save [[97], [98]] = List.intercalate [10] [[97], [98]] ∧
    (save [[97], [98]]).count 10 = ([[97], [98]] : List Line).length - 1 :=
  save_line_breaks [[97], [98]] (by decide) (by decide)

/-- C8: with length < capacity on entry, expand_line guarantees
length + needed < capacity on exit; when the existing capacity was
insufficient the new capacity is (length + needed) * 2; the content bytes
are preserved. -/
theorem expand_line_correct (b : LineBuf) (needed : Nat) (h : b.len < b.cap) :
    (expand_line b needed).len + needed < (expand_line b needed).cap ∧
    (b.cap ≤ b.len + needed →
      (expand_line b needed).cap = (b.len + needed) * 2) ∧
    (expand_line b needed).text = b.text := by
  unfold expand_line
  split_ifs with hc
  · refine ⟨?_, fun _ => rfl, rfl⟩
    simp only [LineBuf.len] at *
    omega
  · refine ⟨?_, fun hcc => absurd hcc hc, rfl⟩
    simp only [LineBuf.len] at *
    omega

/-- Witness for C8: a line of 2 bytes with capacity 3, requesting 4 more. -/
theorem expand_line_correct_witness :
    (expand_line ⟨[97, 98], 3⟩ 4).len + 4 < (expand_line ⟨[97, 98], 3⟩ 4).cap ∧
    ((⟨[97, 98], 3⟩ : LineBuf).cap ≤ (⟨[97, 98], 3⟩ : LineBuf).len + 4 →
      (expand_line ⟨[97, 98], 3⟩ 4).cap = ((⟨[97, 98], 3⟩ : LineBuf).len + 4) * 2) ∧
    (expand_line ⟨[97, 98], 3⟩ 4).text = (⟨[97, 98], 3⟩ : LineBuf).text :=
  expand_line_correct ⟨[97, 98], 3⟩ 4 (by decide)

/-- C9: an input byte that is not printable, not Enter, and not Backspace
leaves the document entirely unchanged: only printable bytes, Enter, and
Backspace mutate the buffer. -/
theorem non_edit_keys_frame (c : Nat) (s : EditorState)
    (hp : isprint_byte c = false) (he : c ≠ 13) (hb : c ≠ 127) :
    (process_input c s).doc = s.doc := by
  unfold process_input
  split_ifs <;> first | rfl | simp_all

/-- Witness for C9 at the escape byte 27. -/
theorem non_edit_keys_frame_witness :
    (process_input 27 ⟨[[97]], 0, 1, 0, 0⟩).doc = (⟨[[97]], 0, 1, 0, 0⟩ : EditorState).doc :=
  non_edit_keys_frame 27 ⟨[[97]], 0, 1, 0, 0⟩ (by decide) (by decide) (by decide)

/-- C10: horizontal movement wraps across line boundaries: MoveLeft at
column 0 with a predecessor row moves to the end of that row, MoveRight at
the end of a line with a successor row moves to its start, and MoveLeft at
(0,0) and MoveRight at the end of the last line do nothing. -/
theorem arrow_wrap (s : EditorState)
    (hrow : s.cursor_row < s.doc.length)
    (hcol : s.cursor_col ≤ (s.doc.getD s.cursor_row []).length) :
    (s.cursor_col = 0 → 0 < s.cursor_row →
      process_input 502 s = { s with
        cursor_row := s.cursor_row - 1
        cursor_col := (s.doc.getD (s.cursor_row - 1) []).length }) ∧
    (s.cursor_col = (s.doc.getD s.cursor_row []).length → s.cursor_row + 1 < s.doc.length →
      process_input 503 s = { s with cursor_row := s.cursor_row + 1, cursor_col := 0 }) ∧
    (s.cursor_col = 0 → s.cursor_row = 0 → process_input 502 s = s) ∧
    (s.cursor_col = (s.doc.getD s.cursor_row []).length → s.cursor_row + 1 = s.doc.length →
      process_input 503 s = s) := by
  refine ⟨fun h1 h2 => ?_, fun h1 h2 => ?_, fun h1 h2 => ?_, fun h1 h2 => ?_⟩
  · rw [process_input_left_eq, if_neg (by omega), if_pos h2]
  · rw [process_input_right_eq, if_neg (by omega), if_pos h2]
  · rw [process_input_left_eq, if_neg (by omega), if_neg (by omega)]
  · rw [process_input_right_eq, if_neg (by omega), if_neg (by omega)]

/-- Witness for C10 on the two-line document of bytes a and b, cursor at
the start of the second line / end of the first line. -/
theorem arrow_wrap_witness :
    process_input 502 ⟨[[97], [98]], 1, 0, 0, 0⟩ = ⟨[[97], [98]], 0, 1, 0, 0⟩ := by
  have h := arrow_wrap ⟨[[97], [98]], 1, 0, 0, 0⟩ (by decide) (by decide)
  exact (h.1 rfl (by decide)).trans (by decide)

/-- C1: backward delete, for any state meeting the cursor invariants: with
col > 0 it removes the byte left of the cursor (bytes after col shift left
by one, the line shortens by one, col decrements, other lines unchanged);
with col = 0 on a row with a predecessor it appends the current line to the
predecessor, removes the current line, decrements row, and sets col to the
predecessor's pre-merge length; at (0, 0) it is a no-op; and on the document
of lines abc, def with cursor (1, 0) it yields the single line abcdef with
cursor (0, 3). -/
theorem delete_char_correct (s : EditorState)
    (hrow : s.cursor_row < s.doc.length)
    (hcol : s.cursor_col ≤ (s.doc.getD s.cursor_row []).length) :
    (0 < s.cursor_col →
      delete_char s = { s with
        doc := s.doc.set s.cursor_row
          ((s.doc.getD s.cursor_row []).take (s.cursor_col - 1) ++
            (s.doc.getD s.cursor_row []).drop s.cursor_col)
        cursor_col := s.cursor_col - 1 }) ∧
    (s.cursor_col = 0 → 0 < s.cursor_row →
      delete_char s = { s with
        doc := (s.doc.set (s.cursor_row - 1)
          (s.doc.getD (s.cursor_row - 1) [] ++ s.doc.getD s.cursor_row [])).eraseIdx
            s.cursor_row
        cursor_row := s.cursor_row - 1
        cursor_col := (s.doc.getD (s.cursor_row - 1) []).length }) ∧
    (s.cursor_col = 0 → s.cursor_row = 0 → delete_char s = s) ∧
    delete_char ⟨[[97, 98, 99], [100, 101, 102]], 1, 0, 0, 0⟩ =
      ⟨[[97, 98, 99, 100, 101, 102]], 0, 3, 0, 0⟩ := by
  refine ⟨fun h1 => ?_, fun h1 h2 => ?_, fun h1 h2 => ?_, by decide⟩
  · simp only [delete_char]
    rw [if_pos ⟨h1, by omega⟩]
    have he : (s.doc.getD s.cursor_row []).eraseIdx (s.cursor_col - 1) =
        (s.doc.getD s.cursor_row []).take (s.cursor_col - 1) ++
          (s.doc.getD s.cursor_row []).drop s.cursor_col := by
      rw [eraseIdx_take_drop]
      congr 2
      omega
    rw [he]
  · simp only [delete_char]
    rw [if_neg (by omega), if_pos ⟨h1, h2⟩, if_pos (by omega)]
    simp only [delete_line]
    rw [if_pos h2]
  · simp only [delete_char]
    rw [if_neg (by omega), if_neg (by omega)]

/-- Witness for C1: deleting the single byte of a one-byte line. -/
theorem delete_char_correct_witness :
    delete_char ⟨[[97]], 0, 1, 0, 0⟩ = ⟨[[]], 0, 0, 0, 0⟩ := by
  have h := delete_char_correct ⟨[[97]], 0, 1, 0, 0⟩ (by decide) (by decide)
  exact (h.1 (by decide)).trans (by decide)

/-- C5: for any state meeting the cursor invariants, insert_newline at
(row, col) followed immediately by delete_char at the resulting (row + 1, 0)
restores the original document and the original cursor position. -/
theorem split_merge_inverse (s : EditorState)
    (hrow : s.cursor_row < s.doc.length)
    (hcol : s.cursor_col ≤ (s.doc.getD s.cursor_row []).length) :
    delete_char (insert_newline s) = s := by
  obtain ⟨doc, row, col, vr, vc⟩ := s
  simp only at hrow hcol
  obtain ⟨A, cur, B, rfl, hA⟩ := exists_decomp doc row hrow
  subst hA
  simp only [getD_append_len] at hcol
  by_cases hsplit : col < cur.length
  · simp only [insert_newline, getD_append_len]
    rw [if_pos hsplit]
    simp only [link_new_line, set_append_len, take_append_len_succ, drop_append_len_succ,
      delete_char, List.append_assoc, List.singleton_append]
    rw [if_neg (by simp), if_pos (by simp), if_pos (by simp [List.length_append])]
    simp only [Nat.add_sub_cancel, getD_append_len, getD_append_len_succ, set_append_len,
      List.take_append_drop, delete_line]
    rw [if_pos (by omega)]
    simp only [eraseIdx_append_len_succ]
    simp [List.length_take, Nat.min_eq_left (Nat.le_of_lt hsplit)]
  · have hcl : col = cur.length := by omega
    simp only [insert_newline, getD_append_len]
    rw [if_neg hsplit]
    simp only [link_new_line, take_append_len_succ, drop_append_len_succ,
      delete_char, List.append_assoc, List.singleton_append]
    rw [if_neg (by simp), if_pos (by simp), if_pos (by simp [List.length_append])]
    simp only [Nat.add_sub_cancel, getD_append_len, getD_append_len_succ, List.append_nil,
      set_append_len, delete_line]
    rw [if_pos (by omega)]
    simp only [eraseIdx_append_len_succ]
    simp [hcl]

/-- Witness for C5: splitting the two-byte line hi at column 1 and merging
back. -/
theorem split_merge_inverse_witness :
    delete_char (insert_newline ⟨[[104, 105]], 0, 1, 0, 0⟩) = ⟨[[104, 105]], 0, 1, 0, 0⟩ :=
  split_merge_inverse ⟨[[104, 105]], 0, 1, 0, 0⟩ (by decide) (by decide)

/-! ### Shape lemmas for the event step -/

theorem delete_char_doc_ne_nil (s : EditorState) (h : 1 ≤ s.doc.length) :
    1 ≤ (delete_char s).doc.length := by
  simp only [delete_char]
  split_ifs with h1 h2 h3
  · simpa using h
  · simp only [delete_line]
    rw [if_pos h2.2]
    exact one_le_length_eraseIdx_pos _ _ h2.2 (by simpa using h)
  · exact h
  · exact h

theorem insert_newline_shape (s : EditorState) :
    (insert_newline s).doc.length = s.doc.length + 1 ∧
    (insert_newline s).cursor_row = s.cursor_row + 1 ∧
    (insert_newline s).viewport_row = s.viewport_row := by
  simp only [insert_newline, link_new_line]
  split_ifs <;>
    refine ⟨?_, rfl, rfl⟩ <;>
    simp [List.length_append, List.length_take, List.length_drop] <;> omega

theorem delete_char_shape (s : EditorState) (h : s.cursor_row < s.doc.length) :
    (delete_char s).cursor_row < (delete_char s).doc.length ∧
    (delete_char s).viewport_row = s.viewport_row := by
  simp only [delete_char]
  split_ifs with h1 h2 h3
  · simpa using h
  · refine ⟨?_, rfl⟩
    simp only [delete_line]
    rw [if_pos h2.2]
    have hlen : ((s.doc.set (s.cursor_row - 1)
        (s.doc.getD (s.cursor_row - 1) [] ++ s.doc.getD s.cursor_row [])).eraseIdx
          s.cursor_row).length = s.doc.length - 1 := by
      rw [length_eraseIdx_of_lt]
      · simp
      · simpa using h
    simp only [hlen]
    omega
  · exact ⟨h, rfl⟩
  · exact ⟨h, rfl⟩

theorem process_input_row_bound (c : Nat) (s : EditorState)
    (hr : s.cursor_row < s.doc.length) :
    (process_input c s).cursor_row < (process_input c s).doc.length ∧
    (process_input c s).viewport_row = s.viewport_row := by
  by_cases e7 : c = 13
  · subst e7
    rw [process_input_enter_eq]
    obtain ⟨h1, h2, h3⟩ := insert_newline_shape s
    rw [h1, h2, h3]
    exact ⟨by omega, rfl⟩
  by_cases e8 : c = 127
  · subst e8
    rw [process_input_backspace_eq]
    exact delete_char_shape s hr
  unfold process_input
  split_ifs <;> simp_all [insert_char] <;> omega

/-- After check_scroll with at least one usable terminal row and a
non-negative incoming vertical offset: the document and cursor are
untouched, and the vertical offset is non-negative and keeps the cursor row
inside the band of trows visible rows. -/
theorem check_scroll_spec (trows tcols : Int) (s : EditorState)
    (htr : 1 ≤ trows) (hvr : 0 ≤ s.viewport_row) :
    (check_scroll trows tcols s).doc = s.doc ∧
    (check_scroll trows tcols s).cursor_row = s.cursor_row ∧
    (check_scroll trows tcols s).cursor_col = s.cursor_col ∧
    0 ≤ (check_scroll trows tcols s).viewport_row ∧
    (check_scroll trows tcols s).viewport_row ≤ (s.cursor_row : Int) ∧
    (s.cursor_row : Int) < (check_scroll trows tcols s).viewport_row + trows := by
  simp only [check_scroll]
  split_ifs <;> exact ⟨by trivial, by trivial, by trivial, by omega, by omega, by omega⟩

theorem draw_rows_inv (trows : Int) (s : EditorState)
    (hr : s.cursor_row < s.doc.length)
    (hvr : 0 ≤ s.viewport_row)
    (hband1 : s.viewport_row ≤ (s.cursor_row : Int))
    (hband2 : (s.cursor_row : Int) < s.viewport_row + trows) :
    Inv (draw_rows trows s) := by
  have hres : resolve_current trows s = s.doc.getD s.cursor_row [] := by
    simp only [resolve_current]
    rw [if_pos ⟨by omega, by omega, by omega⟩]
    congr 1
    omega
  simp only [draw_rows]
  rw [hres, if_neg (by omega)]
  refine ⟨?_, ?_, ?_⟩
  · simpa using hr
  · by_cases hcl : (s.doc.getD s.cursor_row []).length < s.cursor_col
    · rw [if_pos hcl]
    · rw [if_neg hcl]
      simpa using Nat.le_of_not_lt hcl
  · exact hvr

/-! ### Claim theorems (editor level) -/

/-- C3: the document's line count never drops below 1 under any number of
backward-delete operations; and delete_line applied to the sole remaining
line clears it in place rather than removing it, so the document never
becomes empty. -/
theorem document_never_empty (s : EditorState) (n : Nat) (h : 1 ≤ s.doc.length) :
    1 ≤ (iterate_delete n s).doc.length ∧
    ∀ l : Line, (delete_line [l] 0).1 = [[]] := by
  constructor
  · induction n generalizing s with
    | zero => exact h
    | succ n ih => exact ih (delete_char s) (delete_char_doc_ne_nil s h)
  · intro l
    simp [delete_line]

/-- Witness for C3: three deletes starting from the one-line document. -/
theorem document_never_empty_witness :
    1 ≤ (iterate_delete 3 ⟨[[97]], 0, 1, 0, 0⟩).doc.length ∧
    ∀ l : Line, (delete_line [l] 0).1 = [[]] :=
  document_never_empty ⟨[[97]], 0, 1, 0, 0⟩ 3 (by decide)

/-- C4: one full event step — process one input event, then the
viewport-adjust-and-redraw pass — preserves the cursor invariant
0 ≤ row < line count and 0 ≤ col ≤ length of the line at row (together with
the non-negativity of the vertical scroll offset, which holds from startup),
for a terminal with at least one usable text row. -/
theorem event_step_cursor_invariant (trows tcols : Int) (c : Nat) (s : EditorState)
    (htr : 1 ≤ trows) (h : Inv s) :
    Inv (step trows tcols c s) := by
  obtain ⟨hr, hc, hv⟩ := h
  obtain ⟨hr1, hv1⟩ := process_input_row_bound c s hr
  have hv1b : 0 ≤ (process_input c s).viewport_row := by rw [hv1]; exact hv
  obtain ⟨hd2, hcr2, hcc2, hv2, hb1, hb2⟩ :=
    check_scroll_spec trows tcols (process_input c s) htr hv1b
  have hr2 : (check_scroll trows tcols (process_input c s)).cursor_row <
      (check_scroll trows tcols (process_input c s)).doc.length := by
    rw [hcr2, hd2]; exact hr1
  exact draw_rows_inv trows _ hr2 hv2 (by rw [hcr2]; exact hb1) (by rw [hcr2]; exact hb2)

/-- Counterexample for C4 as stated: with zero usable text rows (a one-row
terminal, whose single row is reserved for the status line), the render
loop never reaches the cursor's line, so the column clamp checks the first
line instead.  From the invariant-satisfying state with lines aaa, c, bbb
and cursor (2, 3), one MoveUp event step leaves the cursor at (1, 3) on the
one-byte line c: the cursor bound fails. -/
theorem event_step_cursor_invariant_counterexample :
    Inv ⟨[[97, 97, 97], [99], [98, 98, 98]], 2, 3, 0, 0⟩ ∧
    ¬ Inv (step 0 80 500 ⟨[[97, 97, 97], [99], [98, 98, 98]], 2, 3, 0, 0⟩) := by
  refine ⟨⟨by decide, by decide, by decide⟩, fun h => ?_⟩
  have hcol := h.2.1
  revert hcol
  decide

/-- Witness for C4: pressing Enter on the one-empty-line document in a
24 x 80 terminal. -/
theorem event_step_cursor_invariant_witness :
    Inv (step 24 80 13 ⟨[[]], 0, 0, 0, 0⟩) :=
  event_step_cursor_invariant 24 80 13 ⟨[[]], 0, 0, 0, 0⟩ (by decide)
    ⟨by decide, by decide, by decide⟩

/-- C6 (amended): after check_scroll with terminal_rows ≥ 1 and
terminal_cols ≥ 10 (so that the reserved 10-column margin leaves a
non-negative usable width), the cursor row lies in
[top_row, top_row + terminal_rows), the cursor column lies in
[left_col, left_col + terminal_cols), and the left edge never goes below
column 0. -/
theorem check_scroll_containment (trows tcols : Int) (s : EditorState)
    (htr : 1 ≤ trows) (htc : 10 ≤ tcols) :
    (check_scroll trows tcols s).viewport_row ≤ (s.cursor_row : Int) ∧
    (s.cursor_row : Int) < (check_scroll trows tcols s).viewport_row + trows ∧
    (check_scroll trows tcols s).viewport_col ≤ (s.cursor_col : Int) ∧
    (s.cursor_col : Int) < (check_scroll trows tcols s).viewport_col + tcols ∧
    0 ≤ (check_scroll trows tcols s).viewport_col := by
  simp only [check_scroll]
  split_ifs <;> exact ⟨by omega, by omega, by omega, by omega, by omega⟩

/-- Counterexample for C6 as stated: on a 5-column terminal (within the
claim's stated dimensions, which only require terminal_rows ≥ 1) the usable
width term_cols - 10 is negative, and check_scroll pushes the left edge to
column 5 while the cursor sits at column 0 — neither left_col ≤ cursor.col
nor cursor.col = left_col holds. -/
theorem check_scroll_containment_counterexample :
    (check_scroll 1 5 ⟨[[]], 0, 0, 0, 0⟩).viewport_col = 5 ∧
    ¬((check_scroll 1 5 ⟨[[]], 0, 0, 0, 0⟩).viewport_col ≤
        ((⟨[[]], 0, 0, 0, 0⟩ : EditorState).cursor_col : Int) ∨
      ((⟨[[]], 0, 0, 0, 0⟩ : EditorState).cursor_col : Int) =
        (check_scroll 1 5 ⟨[[]], 0, 0, 0, 0⟩).viewport_col) := by
  decide

/-- Witness for C6 on a 24 x 80 terminal with the cursor at (3, 7) and a
stale viewport at (9, 9). -/
theorem check_scroll_containment_witness :
    (check_scroll 24 80 ⟨[[]], 3, 7, 9, 9⟩).viewport_row ≤
      ((⟨[[]], 3, 7, 9, 9⟩ : EditorState).cursor_row : Int) ∧
    ((⟨[[]], 3, 7, 9, 9⟩ : EditorState).cursor_row : Int) <
      (check_scroll 24 80 ⟨[[]], 3, 7, 9, 9⟩).viewport_row + 24 ∧
    (check_scroll 24 80 ⟨[[]], 3, 7, 9, 9⟩).viewport_col ≤
      ((⟨[[]], 3, 7, 9, 9⟩ : EditorState).cursor_col : Int) ∧
    ((⟨[[]], 3, 7, 9, 9⟩ : EditorState).cursor_col : Int) <
      (check_scroll 24 80 ⟨[[]], 3, 7, 9, 9⟩).viewport_col + 80 ∧
    0 ≤ (check_scroll 24 80 ⟨[[]], 3, 7, 9, 9⟩).viewport_col :=
  check_scroll_containment 24 80 ⟨[[]], 3, 7, 9, 9⟩ (by decide) (by decide)

end Pico
